import Mathlib

/-!
Shallow embedding of the `velos` repository's wire protocol and CLI helpers.

Conventions used throughout:
* A Rust byte (`u8`) is a `Nat` intended to be `< 256`; a byte buffer
  (`&[u8]` / `Vec<u8>`) is a `List Nat`.
* A Rust `String`/`&str` is its UTF-8 byte list; validity is the predicate
  `validUtf8`.
* `BinaryWriter` appends bytes to a growing buffer; each `write_*` method is
  modelled as the byte list it appends, and a sequence of writes as the
  concatenation of those lists.
* `BinaryReader` holds `(data, pos)` and only ever looks at `data[pos..]`;
  it is modelled by the remaining suffix `data.drop pos`, so each `read_*`
  takes the remaining bytes and returns the parsed value together with the
  new remaining suffix.  The Rust bound check `pos + k > data.len()` is
  exactly `remaining.length < k`.
* Fallible Rust functions returning `Result<T, VelosError>` are modelled as
  `Option` (`none` = `Err(ProtocolError ...)`); the error message strings do
  not matter to any claim.
-/

namespace Velos

/-- Little-endian byte decomposition, `k` bytes of `n`
(Rust `u32::to_le_bytes` is `leBytes 4`, `u64::to_le_bytes` is `leBytes 8`;
as in Rust, values that do not fit are truncated mod `256 ^ k`). -/
def leBytes : Nat → Nat → List Nat
  | 0, _ => []
  | k + 1, n => n % 256 :: leBytes k (n / 256)

/-- Little-endian value of a byte list (Rust `uXX::from_le_bytes`). -/
def leVal : List Nat → Nat
  | [] => 0
  | b :: bs => b + 256 * leVal bs

/-- Reinterpret a `u32` bit pattern as an `i32` (two's complement). -/
def i32OfU32 (w : Nat) : Int :=
  if w < 2 ^ 31 then (w : Int) else (w : Int) - 2 ^ 32

/-- Bit pattern of an `i32` as a `u32` (two's complement). -/
def u32OfI32 (v : Int) : Nat := (v % 2 ^ 32).toNat

/-! ### UTF-8 validation (Rust `std::str::from_utf8`)

`utf8ChunkLen bs` is the byte length of the well-formed UTF-8 scalar at the
front of `bs`, or `none` if the front of `bs` is not a well-formed scalar.
The acceptance ranges are those of the UTF-8 specification, which Rust's
`from_utf8` implements: no overlong forms, no surrogates, max U+10FFFF. -/

/-- Is `b` a UTF-8 continuation byte (`0x80..=0xBF`)? -/
def utf8Cont (b : Nat) : Bool := 128 ≤ b && b ≤ 191

def utf8ChunkLen : List Nat → Option Nat
  | [] => none
  | b0 :: rest =>
    if b0 < 128 then some 1
    else if 194 ≤ b0 && b0 ≤ 223 then
      match rest with
      | b1 :: _ => if utf8Cont b1 then some 2 else none
      | [] => none
    else if 224 ≤ b0 && b0 ≤ 239 then
      match rest with
      | b1 :: b2 :: _ =>
        let lo : Nat := if b0 = 224 then 160 else 128
        let hi : Nat := if b0 = 237 then 159 else 191
        if lo ≤ b1 && b1 ≤ hi && utf8Cont b2 then some 3 else none
      | _ => none
    else if 240 ≤ b0 && b0 ≤ 244 then
      match rest with
      | b1 :: b2 :: b3 :: _ =>
        let lo : Nat := if b0 = 240 then 144 else 128
        let hi : Nat := if b0 = 244 then 143 else 191
        if lo ≤ b1 && b1 ≤ hi && utf8Cont b2 && utf8Cont b3 then some 4 else none
      | _ => none
    else none

/-- Fuel-driven UTF-8 validity check; every chunk consumes at least one byte,
so fuel `bs.length` always suffices. -/
def validUtf8Fuel : Nat → List Nat → Bool
  | _, [] => true
  | 0, _ :: _ => false
  | fuel + 1, bs =>
    match utf8ChunkLen bs with
    | some k => validUtf8Fuel fuel (bs.drop k)
    | none => false

/-- `validUtf8 bs` iff `std::str::from_utf8(bs)` succeeds. -/
def validUtf8 (bs : List Nat) : Bool := validUtf8Fuel bs.length bs

/-- How many bytes Rust's lossy decoding skips at an invalid position: the
length of the longest valid prefix of a multi-byte sequence (at least 1). -/
def utf8ErrLen : List Nat → Nat
  | [] => 1
  | b0 :: rest =>
    if 194 ≤ b0 && b0 ≤ 223 then 1
    else if 224 ≤ b0 && b0 ≤ 239 then
      match rest with
      | b1 :: _ =>
        let lo : Nat := if b0 = 224 then 160 else 128
        let hi : Nat := if b0 = 237 then 159 else 191
        if lo ≤ b1 && b1 ≤ hi then 2 else 1
      | [] => 1
    else if 240 ≤ b0 && b0 ≤ 244 then
      match rest with
      | b1 :: rest2 =>
        let lo : Nat := if b0 = 240 then 144 else 128
        let hi : Nat := if b0 = 244 then 143 else 191
        if lo ≤ b1 && b1 ≤ hi then
          match rest2 with
          | b2 :: _ => if utf8Cont b2 then 3 else 2
          | [] => 2
        else 1
      | [] => 1
    else 1

/-- The UTF-8 encoding of U+FFFD REPLACEMENT CHARACTER. -/
def replacementBytes : List Nat := [239, 191, 189]

/-- Rust `String::from_utf8_lossy`, as bytes: valid scalars are copied,
each maximal invalid subpart is replaced by U+FFFD. -/
def utf8LossyFuel : Nat → List Nat → List Nat
  | _, [] => []
  | 0, _ :: _ => []
  | fuel + 1, bs =>
    match utf8ChunkLen bs with
    | some k => bs.take k ++ utf8LossyFuel fuel (bs.drop k)
    | none => replacementBytes ++ utf8LossyFuel fuel (bs.drop (utf8ErrLen bs))

def utf8Lossy (bs : List Nat) : List Nat := utf8LossyFuel bs.length bs

/-! ### `BinaryWriter` (protocol.rs lines 15–44)

Each method is the byte list it appends to `self.buf`. -/

def writeU8 (v : Nat) : List Nat := [v]

def writeU32 (v : Nat) : List Nat := leBytes 4 v

def writeU64 (v : Nat) : List Nat := leBytes 8 v

def writeI32 (v : Int) : List Nat := leBytes 4 (u32OfI32 v)

/-- `write_string`: u32 length prefix (`s.len() as u32`, i.e. truncated
mod `2 ^ 32`, which `leBytes 4` already does) followed by the bytes. -/
def writeString (s : List Nat) : List Nat := writeU32 s.length ++ s

/-! ### `BinaryReader` (protocol.rs lines 46–112)

Each method takes the remaining bytes `data.drop pos` and returns the value
and the new remaining bytes; `none` models `Err(ProtocolError ...)`. -/

def readU8 : List Nat → Option (Nat × List Nat)
  | [] => none
  | b :: rest => some (b, rest)

def readU32 : List Nat → Option (Nat × List Nat)
  | b0 :: b1 :: b2 :: b3 :: rest => some (leVal [b0, b1, b2, b3], rest)
  | _ => none

def readI32 : List Nat → Option (Int × List Nat)
  | b0 :: b1 :: b2 :: b3 :: rest => some (i32OfU32 (leVal [b0, b1, b2, b3]), rest)
  | _ => none

def readU64 : List Nat → Option (Nat × List Nat)
  | b0 :: b1 :: b2 :: b3 :: b4 :: b5 :: b6 :: b7 :: rest =>
    some (leVal [b0, b1, b2, b3, b4, b5, b6, b7], rest)
  | _ => none

/-- `read_string`: u32 length, bound check `pos + len > data.len()`
(i.e. `len > remaining`), then UTF-8 validation of the slice. -/
def readString (bs : List Nat) : Option (List Nat × List Nat) :=
  match readU32 bs with
  | none => none
  | some (len, rest) =>
    if len ≤ rest.length then
      if validUtf8 (rest.take len) then some (rest.take len, rest.drop len)
      else none
    else none

/-! ### Header encode/decode (protocol.rs lines 7–9 and 118–140) -/

def MAGIC0 : Nat := 0x56
def MAGIC1 : Nat := 0x10
def VERSION : Nat := 0x01
def HEADER_SIZE : Nat := 7

/-- `encode_header(payload_len)`: magic, version, 4-byte LE length. -/
def encodeHeader (payloadLen : Nat) : List Nat :=
  MAGIC0 :: MAGIC1 :: VERSION :: leBytes 4 payloadLen

/-- `decode_header(buf: &[u8; 7])`: reject bad magic, then bad version,
then return the LE body length.  (The Rust argument type fixes the length
at 7; a list of any other length maps to `none`.) -/
def decodeHeader : List Nat → Option Nat
  | [b0, b1, b2, b3, b4, b5, b6] =>
    if b0 ≠ MAGIC0 ∨ b1 ≠ MAGIC1 then none
    else if b2 ≠ VERSION then none
    else some (leVal [b3, b4, b5, b6])
  | _ => none

/-! ### Command codes and response status (protocol.rs lines 146–182) -/

inductive CommandCode
  | processStart | processStop | processRestart | processDelete
  | processList | processInfo | processScale
  | logRead | logStream | metricsGet
  | stateSave | stateLoad | ping | shutdown
deriving DecidableEq

/-- The `#[repr(u8)]` discriminant of each command. -/
def CommandCode.toU8 : CommandCode → Nat
  | .processStart => 0x01
  | .processStop => 0x02
  | .processRestart => 0x03
  | .processDelete => 0x04
  | .processList => 0x05
  | .processInfo => 0x06
  | .processScale => 0x07
  | .logRead => 0x10
  | .logStream => 0x11
  | .metricsGet => 0x20
  | .stateSave => 0x30
  | .stateLoad => 0x31
  | .ping => 0x40
  | .shutdown => 0x41

inductive ResponseStatus
  | ok | error | streaming
deriving DecidableEq

/-- `ResponseStatus::from_u8`. -/
def ResponseStatus.fromU8 : Nat → Option ResponseStatus
  | 0 => some .ok
  | 1 => some .error
  | 2 => some .streaming
  | _ => none

/-! ### Request / Response (protocol.rs lines 188–233) -/

structure Request where
  id : Nat
  command : CommandCode
  payload : List Nat

/-- `Request::encode`: header with body length `4 + 1 + payload.len()`
(`as u32`, truncation absorbed by `leBytes`), then LE id, command byte,
payload.  The Rust function returns `Result` but never errs. -/
def Request.encode (r : Request) : List Nat :=
  encodeHeader (4 + 1 + r.payload.length) ++
    leBytes 4 r.id ++ [r.command.toU8] ++ r.payload

structure Response where
  id : Nat
  status : ResponseStatus
  payload : List Nat
deriving DecidableEq

/-- `Response::from_body`: reject bodies shorter than 5 bytes, LE id from
the first 4 bytes, status from byte 4, payload is the rest. -/
def Response.fromBody : List Nat → Option Response
  | b0 :: b1 :: b2 :: b3 :: s :: rest =>
    match ResponseStatus.fromU8 s with
    | some st => some ⟨leVal [b0, b1, b2, b3], st, rest⟩
    | none => none
  | _ => none

/-- `Response::error_message`: lossy UTF-8 decoding of the payload. -/
def Response.errorMessage (r : Response) : List Nat := utf8Lossy r.payload

/-! ### `VelosClient::check_response` (velos-client/src/commands.rs 101–108)

`Ok`/`Streaming` succeed; `Error` fails carrying `error_message`. -/

def checkResponse (resp : Response) : Except (List Nat) Unit :=
  match resp.status with
  | .ok => .ok ()
  | .streaming => .ok ()
  | .error => .error resp.errorMessage

/-! ### `StartPayload` (protocol.rs lines 241–289) -/

structure StartPayload where
  name : List Nat
  script : List Nat
  cwd : List Nat
  interpreter : Option (List Nat)
  killTimeoutMs : Nat
  autorestart : Bool
  maxRestarts : Int
  minUptimeMs : Nat
  restartDelayMs : Nat
  expBackoff : Bool
  maxMemoryRestart : Nat
  watch : Bool
  watchDelayMs : Nat
  watchPaths : List Nat
  watchIgnore : List Nat
  cronRestart : List Nat
  waitReady : Bool
  listenTimeoutMs : Nat
  shutdownWithMessage : Bool
  instances : Nat

/-- Rust `if b { 1 } else { 0 }` for the `write_u8(bool)` pattern. -/
def boolByte (b : Bool) : Nat := if b then 1 else 0

/-- `StartPayload::encode`: the writes of protocol.rs lines 265–288,
in order (`interpreter.as_deref().unwrap_or("")` is `getD []`). -/
def StartPayload.encode (p : StartPayload) : List Nat :=
  writeString p.name ++ writeString p.script ++ writeString p.cwd ++
  writeString (p.interpreter.getD []) ++
  writeU32 p.killTimeoutMs ++ writeU8 (boolByte p.autorestart) ++
  writeI32 p.maxRestarts ++ writeU64 p.minUptimeMs ++
  writeU32 p.restartDelayMs ++ writeU8 (boolByte p.expBackoff) ++
  writeU64 p.maxMemoryRestart ++ writeU8 (boolByte p.watch) ++
  writeU32 p.watchDelayMs ++ writeString p.watchPaths ++
  writeString p.watchIgnore ++ writeString p.cronRestart ++
  writeU8 (boolByte p.waitReady) ++ writeU32 p.listenTimeoutMs ++
  writeU8 (boolByte p.shutdownWithMessage) ++ writeU32 p.instances

/-- The field values of a `StartPayload` as they appear on the wire, in
declaration order: strings as written (`interpreter` or `""`), booleans as
their `{0,1}` byte. -/
structure StartFieldBytes where
  name : List Nat
  script : List Nat
  cwd : List Nat
  interpreter : List Nat
  killTimeoutMs : Nat
  autorestart : Nat
  maxRestarts : Int
  minUptimeMs : Nat
  restartDelayMs : Nat
  expBackoff : Nat
  maxMemoryRestart : Nat
  watch : Nat
  watchDelayMs : Nat
  watchPaths : List Nat
  watchIgnore : List Nat
  cronRestart : List Nat
  waitReady : Nat
  listenTimeoutMs : Nat
  shutdownWithMessage : Nat
  instances : Nat
deriving DecidableEq

def StartPayload.fieldBytes (p : StartPayload) : StartFieldBytes :=
  ⟨p.name, p.script, p.cwd, p.interpreter.getD [], p.killTimeoutMs,
   boolByte p.autorestart, p.maxRestarts, p.minUptimeMs, p.restartDelayMs,
   boolByte p.expBackoff, p.maxMemoryRestart, boolByte p.watch,
   p.watchDelayMs, p.watchPaths, p.watchIgnore, p.cronRestart,
   boolByte p.waitReady, p.listenTimeoutMs, boolByte p.shutdownWithMessage,
   p.instances⟩

/-- All fields of a `StartPayload` are representable in their Rust types:
strings (including the written `interpreter.unwrap_or("")`) are valid
UTF-8 shorter than `2 ^ 32` bytes, integers fit their widths. -/
def StartPayload.WF (p : StartPayload) : Prop :=
  validUtf8 p.name = true ∧ p.name.length < 2 ^ 32 ∧
  validUtf8 p.script = true ∧ p.script.length < 2 ^ 32 ∧
  validUtf8 p.cwd = true ∧ p.cwd.length < 2 ^ 32 ∧
  validUtf8 (p.interpreter.getD []) = true ∧
  (p.interpreter.getD []).length < 2 ^ 32 ∧
  p.killTimeoutMs < 2 ^ 32 ∧
  -(2 ^ 31) ≤ p.maxRestarts ∧ p.maxRestarts < 2 ^ 31 ∧
  p.minUptimeMs < 2 ^ 64 ∧
  p.restartDelayMs < 2 ^ 32 ∧
  p.maxMemoryRestart < 2 ^ 64 ∧
  p.watchDelayMs < 2 ^ 32 ∧
  validUtf8 p.watchPaths = true ∧ p.watchPaths.length < 2 ^ 32 ∧
  validUtf8 p.watchIgnore = true ∧ p.watchIgnore.length < 2 ^ 32 ∧
  validUtf8 p.cronRestart = true ∧ p.cronRestart.length < 2 ^ 32 ∧
  p.listenTimeoutMs < 2 ^ 32 ∧
  p.instances < 2 ^ 32

/-- Field-wise reads in declaration order (the matching `BinaryReader`
calls, as exercised by the repository's `test_start_payload_encode`). -/
def readStartFields (bs : List Nat) : Option (StartFieldBytes × List Nat) :=
  match readString bs with
  | none => none
  | some (name, bs) =>
  match readString bs with
  | none => none
  | some (script, bs) =>
  match readString bs with
  | none => none
  | some (cwd, bs) =>
  match readString bs with
  | none => none
  | some (interpreter, bs) =>
  match readU32 bs with
  | none => none
  | some (killTimeoutMs, bs) =>
  match readU8 bs with
  | none => none
  | some (autorestart, bs) =>
  match readI32 bs with
  | none => none
  | some (maxRestarts, bs) =>
  match readU64 bs with
  | none => none
  | some (minUptimeMs, bs) =>
  match readU32 bs with
  | none => none
  | some (restartDelayMs, bs) =>
  match readU8 bs with
  | none => none
  | some (expBackoff, bs) =>
  match readU64 bs with
  | none => none
  | some (maxMemoryRestart, bs) =>
  match readU8 bs with
  | none => none
  | some (watch, bs) =>
  match readU32 bs with
  | none => none
  | some (watchDelayMs, bs) =>
  match readString bs with
  | none => none
  | some (watchPaths, bs) =>
  match readString bs with
  | none => none
  | some (watchIgnore, bs) =>
  match readString bs with
  | none => none
  | some (cronRestart, bs) =>
  match readU8 bs with
  | none => none
  | some (waitReady, bs) =>
  match readU32 bs with
  | none => none
  | some (listenTimeoutMs, bs) =>
  match readU8 bs with
  | none => none
  | some (shutdownWithMessage, bs) =>
  match readU32 bs with
  | none => none
  | some (instances, bs) =>
  some (⟨name, script, cwd, interpreter, killTimeoutMs, autorestart,
    maxRestarts, minUptimeMs, restartDelayMs, expBackoff, maxMemoryRestart,
    watch, watchDelayMs, watchPaths, watchIgnore, cronRestart, waitReady,
    listenTimeoutMs, shutdownWithMessage, instances⟩, bs)

/-! ### Arbitrary write sequences

A `WItem` names one `BinaryWriter` write call together with the value
written; a `List WItem` is an arbitrary sequence of writes.  `readItem`
performs the matching `BinaryReader` call (the stored value only selects
which reader runs; the value read is returned). -/

inductive WItem where
  | u8 (v : Nat)
  | u32 (v : Nat)
  | i32 (v : Int)
  | u64 (v : Nat)
  | str (s : List Nat)
deriving DecidableEq

/-- The bytes the corresponding `write_*` call appends. -/
def WItem.enc : WItem → List Nat
  | .u8 v => writeU8 v
  | .u32 v => writeU32 v
  | .i32 v => writeI32 v
  | .u64 v => writeU64 v
  | .str s => writeString s

/-- The buffer after a sequence of writes into a fresh `BinaryWriter`. -/
def writeItems : List WItem → List Nat
  | [] => []
  | it :: its => it.enc ++ writeItems its

/-- The matching read call for one item. -/
def readItem : WItem → List Nat → Option (WItem × List Nat)
  | .u8 _, bs =>
    match readU8 bs with
    | none => none
    | some (v, r) => some (.u8 v, r)
  | .u32 _, bs =>
    match readU32 bs with
    | none => none
    | some (v, r) => some (.u32 v, r)
  | .i32 _, bs =>
    match readI32 bs with
    | none => none
    | some (v, r) => some (.i32 v, r)
  | .u64 _, bs =>
    match readU64 bs with
    | none => none
    | some (v, r) => some (.u64 v, r)
  | .str _, bs =>
    match readString bs with
    | none => none
    | some (s, r) => some (.str s, r)

/-- The matching reads, in order. -/
def readItems : List WItem → List Nat → Option (List WItem × List Nat)
  | [], bs => some ([], bs)
  | it :: its, bs =>
    match readItem it bs with
    | none => none
    | some (v, r) =>
      match readItems its r with
      | none => none
      | some (vs, r2) => some (v :: vs, r2)

/-- A written value is representable in its Rust type: `u8`/`u32`/`u64`
fit their width, `i32` is in two's-complement range, and a string is valid
UTF-8 (guaranteed by Rust's `String`) with byte length below `2 ^ 32`. -/
def WItem.WF : WItem → Prop
  | .u8 v => v < 2 ^ 8
  | .u32 v => v < 2 ^ 32
  | .i32 v => -(2 ^ 31) ≤ v ∧ v < 2 ^ 31
  | .u64 v => v < 2 ^ 64
  | .str s => validUtf8 s = true ∧ s.length < 2 ^ 32

/-! ### List / Info / Log decoders (protocol.rs lines 368–567) -/

structure ProcessInfo where
  id : Nat
  name : List Nat
  pid : Nat
  status : Nat
  memoryBytes : Nat
  uptimeMs : Nat
  restartCount : Nat
deriving DecidableEq

/-- One record of `decode_process_list`'s loop body. -/
def readProcessInfo (bs : List Nat) : Option (ProcessInfo × List Nat) :=
  match readU32 bs with
  | none => none
  | some (id, bs) =>
  match readString bs with
  | none => none
  | some (name, bs) =>
  match readU32 bs with
  | none => none
  | some (pid, bs) =>
  match readU8 bs with
  | none => none
  | some (status, bs) =>
  match readU64 bs with
  | none => none
  | some (memoryBytes, bs) =>
  match readU64 bs with
  | none => none
  | some (uptimeMs, bs) =>
  match readU32 bs with
  | none => none
  | some (restartCount, bs) =>
  some (⟨id, name, pid, status, memoryBytes, uptimeMs, restartCount⟩, bs)

def readProcessInfoN : Nat → List Nat → Option (List ProcessInfo × List Nat)
  | 0, bs => some ([], bs)
  | n + 1, bs =>
    match readProcessInfo bs with
    | none => none
    | some (p, bs) =>
      match readProcessInfoN n bs with
      | none => none
      | some (ps, bs) => some (p :: ps, bs)

/-- `decode_process_list`: u32 count, then that many records. -/
def decodeProcessList (data : List Nat) : Option (List ProcessInfo) :=
  match readU32 data with
  | none => none
  | some (count, bs) =>
    match readProcessInfoN count bs with
    | none => none
    | some (ps, _) => some ps

structure LogEntry where
  timestampMs : Nat
  level : Nat
  stream : Nat
  message : List Nat
deriving DecidableEq

def readLogEntry (bs : List Nat) : Option (LogEntry × List Nat) :=
  match readU64 bs with
  | none => none
  | some (timestampMs, bs) =>
  match readU8 bs with
  | none => none
  | some (level, bs) =>
  match readU8 bs with
  | none => none
  | some (stream, bs) =>
  match readString bs with
  | none => none
  | some (message, bs) =>
  some (⟨timestampMs, level, stream, message⟩, bs)

def readLogEntryN : Nat → List Nat → Option (List LogEntry × List Nat)
  | 0, bs => some ([], bs)
  | n + 1, bs =>
    match readLogEntry bs with
    | none => none
    | some (e, bs) =>
      match readLogEntryN n bs with
      | none => none
      | some (es, bs) => some (e :: es, bs)

/-- `decode_log_entries`: u32 count, then that many entries. -/
def decodeLogEntries (data : List Nat) : Option (List LogEntry) :=
  match readU32 data with
  | none => none
  | some (count, bs) =>
    match readLogEntryN count bs with
    | none => none
    | some (es, _) => some es

structure ProcessDetail where
  id : Nat
  name : List Nat
  pid : Nat
  status : Nat
  memoryBytes : Nat
  uptimeMs : Nat
  restartCount : Nat
  consecutiveCrashes : Nat
  lastRestartMs : Nat
  script : List Nat
  cwd : List Nat
  interpreter : List Nat
  killTimeoutMs : Nat
  autorestart : Bool
  maxRestarts : Int
  minUptimeMs : Nat
  restartDelayMs : Nat
  expBackoff : Bool
  maxMemoryRestart : Nat
  watch : Bool
  cronRestart : List Nat
  waitReady : Bool
  shutdownWithMessage : Bool

/-- `decode_process_detail` (protocol.rs lines 482–509). -/
def decodeProcessDetail (data : List Nat) : Option ProcessDetail :=
  match readU32 data with
  | none => none
  | some (id, bs) =>
  match readString bs with
  | none => none
  | some (name, bs) =>
  match readU32 bs with
  | none => none
  | some (pid, bs) =>
  match readU8 bs with
  | none => none
  | some (status, bs) =>
  match readU64 bs with
  | none => none
  | some (memoryBytes, bs) =>
  match readU64 bs with
  | none => none
  | some (uptimeMs, bs) =>
  match readU32 bs with
  | none => none
  | some (restartCount, bs) =>
  match readU32 bs with
  | none => none
  | some (consecutiveCrashes, bs) =>
  match readU64 bs with
  | none => none
  | some (lastRestartMs, bs) =>
  match readString bs with
  | none => none
  | some (script, bs) =>
  match readString bs with
  | none => none
  | some (cwd, bs) =>
  match readString bs with
  | none => none
  | some (interpreter, bs) =>
  match readU32 bs with
  | none => none
  | some (killTimeoutMs, bs) =>
  match readU8 bs with
  | none => none
  | some (autorestartB, bs) =>
  match readI32 bs with
  | none => none
  | some (maxRestarts, bs) =>
  match readU64 bs with
  | none => none
  | some (minUptimeMs, bs) =>
  match readU32 bs with
  | none => none
  | some (restartDelayMs, bs) =>
  match readU8 bs with
  | none => none
  | some (expBackoffB, bs) =>
  match readU64 bs with
  | none => none
  | some (maxMemoryRestart, bs) =>
  match readU8 bs with
  | none => none
  | some (watchB, bs) =>
  match readString bs with
  | none => none
  | some (cronRestart, bs) =>
  match readU8 bs with
  | none => none
  | some (waitReadyB, bs) =>
  match readU8 bs with
  | none => none
  | some (shutdownB, _) =>
  some ⟨id, name, pid, status, memoryBytes, uptimeMs, restartCount,
    consecutiveCrashes, lastRestartMs, script, cwd, interpreter,
    killTimeoutMs, autorestartB ≠ 0, maxRestarts, minUptimeMs,
    restartDelayMs, expBackoffB ≠ 0, maxMemoryRestart, watchB ≠ 0,
    cronRestart, waitReadyB ≠ 0, shutdownB ≠ 0⟩

/-- `StateLoadResult::decode` (protocol.rs lines 519–527): empty input
is count 0; otherwise a LE u32 read (error on 1–3 bytes). -/
def stateLoadDecode (data : List Nat) : Option Nat :=
  match data with
  | [] => some 0
  | _ =>
    match readU32 data with
    | some (count, _) => some count
    | none => none

/-! ### Rust `str::parse` for unsigned/signed integers

`u32::from_str` (and `u64::from_str`) accept an optional leading `+`
followed by one or more ASCII digits, and error on overflow; `i32::from_str`
also accepts a leading `-`.  Strings are byte lists; digits are `0x30..0x39`,
`+` is `0x2B`, `-` is `0x2D`. -/

def isDigitByte (b : Nat) : Bool := 48 ≤ b && b ≤ 57

/-- Value of an all-digit byte list, most significant first. -/
def decVal (ds : List Nat) : Nat := ds.foldl (fun acc d => 10 * acc + (d - 48)) 0

/-- Shared body of the unsigned parsers: optional `+`, then ≥ 1 digits,
value must be below `bound`. -/
def parseUnsigned (bound : Nat) (s : List Nat) : Option Nat :=
  let ds := match s with
    | c :: rest => if c = 43 then rest else s
    | [] => s
  if ds = [] then none
  else if ds.all isDigitByte then
    if decVal ds < bound then some (decVal ds) else none
  else none

def parseU32 (s : List Nat) : Option Nat := parseUnsigned (2 ^ 32) s

def parseU64 (s : List Nat) : Option Nat := parseUnsigned (2 ^ 64) s

/-- `i32::from_str`: optional sign, digits, range check. -/
def parseI32 (s : List Nat) : Option Int :=
  let (neg, ds) : Bool × List Nat := match s with
    | c :: rest =>
      if c = 43 then (false, rest)
      else if c = 45 then (true, rest)
      else (false, s)
    | [] => (false, s)
  if ds = [] then none
  else if ds.all isDigitByte then
    let v : Int := if neg then -(decVal ds : Int) else (decVal ds : Int)
    if -(2 ^ 31) ≤ v ∧ v < 2 ^ 31 then some v else none
  else none

/-! ### Name resolution (velos-cli/src/commands/mod.rs 53–90)

`resolve_ids` is async and fetches the process list over IPC; the list the
daemon returned is passed here as the `procs` argument. -/

/-- Does `name` match `base` as a cluster instance, i.e. is it
`base ++ ":" ++ suffix` with `suffix` parsing as `u32`?  This is the
filter of mod.rs lines 76–81 (`:` is byte 58). -/
def isClusterInstance (base name : List Nat) : Bool :=
  decide (name.length > base.length) &&
  base.isPrefixOf name &&
  name[base.length]? == some 58 &&
  (parseU32 (name.drop (base.length + 1))).isSome

inductive ResolveErr
  | processNotFound (name : List Nat)
deriving DecidableEq

/-- `resolve_ids`: numeric strings are ids; otherwise exact name matches,
then cluster-instance matches, then `ProcessNotFound`. -/
def resolveIds (procs : List ProcessInfo) (nameOrId : List Nat) :
    Except ResolveErr (List Nat) :=
  match parseU32 nameOrId with
  | some id => .ok [id]
  | none =>
    let exact := (procs.filter fun p => p.name = nameOrId).map (·.id)
    if exact ≠ [] then .ok exact
    else
      let cluster := (procs.filter fun p => isClusterInstance nameOrId p.name).map (·.id)
      if cluster ≠ [] then .ok cluster
      else .error (.processNotFound nameOrId)

/-! ### Scale target resolution (velos-cli/src/commands/scale.rs 38–79) -/

/-- Decode one UTF-8 scalar at the front: its code point and byte length
(the same acceptance ranges as `utf8ChunkLen`). -/
def utf8CodePoint : List Nat → Option (Nat × Nat)
  | [] => none
  | b0 :: rest =>
    if b0 < 128 then some (b0, 1)
    else if 194 ≤ b0 && b0 ≤ 223 then
      match rest with
      | b1 :: _ =>
        if utf8Cont b1 then some ((b0 - 192) * 64 + (b1 - 128), 2) else none
      | [] => none
    else if 224 ≤ b0 && b0 ≤ 239 then
      match rest with
      | b1 :: b2 :: _ =>
        let lo : Nat := if b0 = 224 then 160 else 128
        let hi : Nat := if b0 = 237 then 159 else 191
        if lo ≤ b1 && b1 ≤ hi && utf8Cont b2 then
          some ((b0 - 224) * 4096 + (b1 - 128) * 64 + (b2 - 128), 3)
        else none
      | _ => none
    else if 240 ≤ b0 && b0 ≤ 244 then
      match rest with
      | b1 :: b2 :: b3 :: _ =>
        let lo : Nat := if b0 = 240 then 144 else 128
        let hi : Nat := if b0 = 244 then 143 else 191
        if lo ≤ b1 && b1 ≤ hi && utf8Cont b2 && utf8Cont b3 then
          some ((b0 - 240) * 262144 + (b1 - 128) * 4096 +
            (b2 - 128) * 64 + (b3 - 128), 4)
        else none
      | _ => none
    else none

/-- `char::is_whitespace`: the Unicode White_Space code points
(U+0009–U+000D, U+0020, U+0085, U+00A0, U+1680, U+2000–U+200A, U+2028,
U+2029, U+202F, U+205F, U+3000). -/
def isUnicodeSpace (cp : Nat) : Bool :=
  (9 ≤ cp && cp ≤ 13) || cp = 32 || cp = 133 || cp = 160 || cp = 5760 ||
  (8192 ≤ cp && cp ≤ 8202) || cp = 8232 || cp = 8233 || cp = 8239 ||
  cp = 8287 || cp = 12288

/-- `str::trim_start`: drop leading whitespace characters (scalar-wise;
each scalar consumes ≥ 1 byte so fuel `s.length` suffices).  A byte
sequence that is not a scalar stops the trim; Rust strings are always
valid UTF-8, so that case is unreachable from the source. -/
def trimFrontFuel : Nat → List Nat → List Nat
  | 0, s => s
  | fuel + 1, s =>
    match utf8CodePoint s with
    | some (cp, k) =>
      if isUnicodeSpace cp then trimFrontFuel fuel (s.drop k) else s
    | none => s

/-- `str::trim_end`: remove the maximal suffix of whitespace characters. -/
def trimBackFuel : Nat → List Nat → List Nat
  | 0, s => s
  | fuel + 1, s =>
    match utf8CodePoint s with
    | some (cp, k) =>
      let rest := trimBackFuel fuel (s.drop k)
      if rest = [] && isUnicodeSpace cp then [] else s.take k ++ rest
    | none => s

/-- `str::trim`: leading and trailing `char::is_whitespace` characters
removed, decoding the bytes as UTF-8 scalars. -/
def trimBytes (s : List Nat) : List Nat :=
  let front := trimFrontFuel s.length s
  trimBackFuel front.length front

/-- `u8::to_ascii_lowercase` on a byte. -/
def lowerByte (b : Nat) : Nat := if 65 ≤ b && b ≤ 90 then b + 32 else b

/-- `str::eq_ignore_ascii_case`. -/
def eqIgnoreAsciiCase (a b : List Nat) : Bool :=
  a.map lowerByte == b.map lowerByte

/-- `"max"` as bytes. -/
def maxLit : List Nat := [109, 97, 120]

/-- `usize as i32` (two's complement truncation), for `count() as i32`. -/
def i32OfUsize (n : Nat) : Int := i32OfU32 (n % 2 ^ 32)

/-- Reduce an integer into `i32` range by two's complement: the result of
Rust's release-mode wrapping `i32` arithmetic (debug builds panic on
overflow; the wrapped value is what is modelled). -/
def i32Wrap (v : Int) : Int := i32OfU32 (u32OfI32 v)

/-- The current-instance filter of scale.rs lines 63–69: name equals the
base exactly, or is a `base:N` cluster instance. -/
def currentInstanceCount (procs : List ProcessInfo) (name : List Nat) : Nat :=
  (procs.filter fun p => p.name = name || isClusterInstance name p.name).length

/-- `resolve_target_count`.  `cpus` stands for
`available_parallelism().unwrap_or(1)` (a host property); `procs` for the
list fetched from the daemon in the relative branch.  `current + delta`
is an `i32` addition, so it wraps (`i32Wrap`); `.max(0) as u32` is
`Int.toNat` of the clamped value. -/
def resolveTargetCount (cpus : Nat) (procs : List ProcessInfo)
    (name countStr : List Nat) : Option Nat :=
  let s := trimBytes countStr
  if eqIgnoreAsciiCase s maxLit then some cpus
  else if s.head? = some 43 ∨ s.head? = some 45 then
    match parseI32 s with
    | none => none
    | some delta =>
      let current : Int := i32OfUsize (currentInstanceCount procs name)
      some (max (i32Wrap (current + delta)) 0).toNat
  else
    parseU32 s

/-! ### Memory-size parsing (velos-config/src/lib.rs 374–408) -/

/-- `str::strip_suffix(c)` on bytes. -/
def stripSuffixByte (s : List Nat) (c : Nat) : Option (List Nat) :=
  if s.getLast? = some c then some (s.dropLast) else none

/-- The suffix-stripping chain of `parse_memory_string` (lib.rs 381–400):
the suffixes `G g M m K k B b` are tried in that order; no suffix means
multiplier 1. -/
def memSuffixSplit (s : List Nat) : List Nat × Nat :=
  match stripSuffixByte s 71 with          -- G
  | some num => (num, 1024 * 1024 * 1024)
  | none =>
  match stripSuffixByte s 103 with         -- g
  | some num => (num, 1024 * 1024 * 1024)
  | none =>
  match stripSuffixByte s 77 with          -- M
  | some num => (num, 1024 * 1024)
  | none =>
  match stripSuffixByte s 109 with         -- m
  | some num => (num, 1024 * 1024)
  | none =>
  match stripSuffixByte s 75 with          -- K
  | some num => (num, 1024)
  | none =>
  match stripSuffixByte s 107 with         -- k
  | some num => (num, 1024)
  | none =>
  match stripSuffixByte s 66 with          -- B
  | some num => (num, 1)
  | none =>
  match stripSuffixByte s 98 with          -- b
  | some num => (num, 1)
  | none => (s, 1)

/-- `parse_memory_string`: trim, reject empty, strip the suffix, parse the
(re-trimmed) number part as `u64`, multiply.  The Rust `num * multiplier`
is an unchecked `u64` multiply, hence the `% 2 ^ 64`. -/
def parseMemoryString (s : List Nat) : Option Nat :=
  let s := trimBytes s
  if s = [] then none
  else
    match parseU64 (trimBytes (memSuffixSplit s).1) with
    | none => none
    | some num => some (num * (memSuffixSplit s).2 % 2 ^ 64)

/-! ### Prometheus rendering (velos-metrics/src/prometheus.rs 73–195)

`format_metrics` writes one text line per sample.  A sample line is
modelled structurally: the metric name, the (escaped) `name` label, the
`instance` label (the process id), and the numeric sample value.  The one
non-integer value, `uptime_ms as f64 / 1000.0` printed with three
decimals, is modelled as the exact rational `uptime_ms / 1000`. -/

/-- `escape`: Prometheus label escaping, `\ → \\`, `" → \"`, newline `→ \n`
(bytes 92, 34, 10). -/
def promEscape (s : List Nat) : List Nat :=
  s.flatMap fun b =>
    if b = 92 then [92, 92]
    else if b = 34 then [92, 34]
    else if b = 10 then [92, 110]
    else [b]

structure PromSample where
  metric : String
  nameLabel : List Nat
  instanceLabel : Nat
  value : ℚ
deriving DecidableEq

/-- The `status_val` match of prometheus.rs lines 155–161. -/
def promStatusVal (status : Nat) : Nat :=
  match status with
  | 0 => 0
  | 1 => 1
  | 2 => 2
  | 3 => 1
  | _ => 0

/-- One labelled sample family: one line per process, in list order. -/
def promFamily (metric : String) (value : ProcessInfo → ℚ)
    (processes : List ProcessInfo) : List PromSample :=
  processes.map fun p => ⟨metric, promEscape p.name, p.id, value p⟩

/-- The samples `format_metrics` emits, in emission order: the five
per-process families, then the daemon total (no labels, modelled with an
empty name label and instance 0). -/
def formatMetrics (processes : List ProcessInfo) : List PromSample :=
  promFamily "velos_process_cpu_percent" (fun _ => 0) processes ++
  promFamily "velos_process_memory_bytes" (fun p => (p.memoryBytes : ℚ)) processes ++
  promFamily "velos_process_uptime_seconds" (fun p => (p.uptimeMs : ℚ) / 1000) processes ++
  promFamily "velos_process_restart_total" (fun p => (p.restartCount : ℚ)) processes ++
  promFamily "velos_process_status" (fun p => (promStatusVal p.status : ℚ)) processes ++
  [⟨"velos_daemon_processes_total", [], 0, (processes.length : ℚ)⟩]

/-! ## Round-trip lemmas for the primitive codec -/

theorem readU8_writeU8 (v : Nat) (rest : List Nat) :
    readU8 (writeU8 v ++ rest) = some (v, rest) := rfl

theorem readU32_writeU32 (v : Nat) (h : v < 2 ^ 32) (rest : List Nat) :
    readU32 (writeU32 v ++ rest) = some (v, rest) := by
  have hw : writeU32 v ++ rest =
      v % 256 :: (v / 256 % 256) :: (v / 256 / 256 % 256) ::
        (v / 256 / 256 / 256 % 256) :: rest := rfl
  rw [hw, readU32]
  simp only [leVal, Prod.mk.injEq, Option.some.injEq]
  exact ⟨by omega, trivial⟩

theorem readU64_writeU64 (v : Nat) (h : v < 2 ^ 64) (rest : List Nat) :
    readU64 (writeU64 v ++ rest) = some (v, rest) := by
  have hw : writeU64 v ++ rest =
      v % 256 :: (v / 256 % 256) :: (v / 256 / 256 % 256) ::
        (v / 256 / 256 / 256 % 256) :: (v / 256 / 256 / 256 / 256 % 256) ::
        (v / 256 / 256 / 256 / 256 / 256 % 256) ::
        (v / 256 / 256 / 256 / 256 / 256 / 256 % 256) ::
        (v / 256 / 256 / 256 / 256 / 256 / 256 / 256 % 256) :: rest := rfl
  rw [hw, readU64]
  simp only [leVal, Prod.mk.injEq, Option.some.injEq]
  exact ⟨by omega, trivial⟩

theorem i32OfU32_u32OfI32 (v : Int) (h1 : -(2 ^ 31) ≤ v) (h2 : v < 2 ^ 31) :
    i32OfU32 (u32OfI32 v) = v := by
  simp only [i32OfU32, u32OfI32]
  split <;> omega

theorem readI32_writeI32 (v : Int) (h1 : -(2 ^ 31) ≤ v) (h2 : v < 2 ^ 31)
    (rest : List Nat) : readI32 (writeI32 v ++ rest) = some (v, rest) := by
  set w := u32OfI32 v with hwdef
  have hw : writeI32 v ++ rest =
      w % 256 :: (w / 256 % 256) :: (w / 256 / 256 % 256) ::
        (w / 256 / 256 / 256 % 256) :: rest := rfl
  rw [hw, readI32]
  simp only [Option.some.injEq, Prod.mk.injEq]
  refine ⟨?_, trivial⟩
  have hlt : w < 2 ^ 32 := by rw [hwdef]; simp only [u32OfI32]; omega
  have hv : leVal [w % 256, w / 256 % 256, w / 256 / 256 % 256,
      w / 256 / 256 / 256 % 256] = w := by
    simp only [leVal]; omega
  rw [hv, hwdef, i32OfU32_u32OfI32 v h1 h2]

theorem readString_writeString (s : List Nat) (hv : validUtf8 s = true)
    (hl : s.length < 2 ^ 32) (rest : List Nat) :
    readString (writeString s ++ rest) = some (s, rest) := by
  unfold writeString readString
  rw [List.append_assoc, readU32_writeU32 s.length hl (s ++ rest)]
  simp only [List.length_append, List.take_left, List.drop_left, hv,
    if_true, Nat.le_add_right, if_pos]

theorem readItem_enc (it : WItem) (h : it.WF) (rest : List Nat) :
    readItem it (it.enc ++ rest) = some (it, rest) := by
  cases it with
  | u8 v => rw [WItem.enc, readItem, readU8_writeU8]
  | u32 v => rw [WItem.enc, readItem, readU32_writeU32 v h]
  | i32 v => rw [WItem.enc, readItem, readI32_writeI32 v h.1 h.2]
  | u64 v => rw [WItem.enc, readItem, readU64_writeU64 v h]
  | str s => rw [WItem.enc, readItem, readString_writeString s h.1 h.2]

theorem readItems_writeItems (its : List WItem) (h : ∀ it ∈ its, it.WF)
    (rest : List Nat) :
    readItems its (writeItems its ++ rest) = some (its, rest) := by
  induction its generalizing rest with
  | nil => rfl
  | cons it its ih =>
    rw [writeItems, List.append_assoc, readItems,
      readItem_enc it (h it (by simp)) (writeItems its ++ rest)]
    dsimp only
    rw [ih (fun x hx => h x (by simp [hx])) rest]

theorem readStartFields_encode (p : StartPayload) (h : p.WF) (rest : List Nat) :
    readStartFields (p.encode ++ rest) = some (p.fieldBytes, rest) := by
  obtain ⟨hv1, hl1, hv2, hl2, hv3, hl3, hv4, hl4, hk, hmr1, hmr2, hmu, hrd,
    hmm, hwd, hv5, hl5, hv6, hl6, hv7, hl7, hlt, hin⟩ := h
  unfold readStartFields StartPayload.encode
  simp only [List.append_assoc]
  rw [readString_writeString p.name hv1 hl1]; dsimp only
  rw [readString_writeString p.script hv2 hl2]; dsimp only
  rw [readString_writeString p.cwd hv3 hl3]; dsimp only
  rw [readString_writeString (p.interpreter.getD []) hv4 hl4]; dsimp only
  rw [readU32_writeU32 p.killTimeoutMs hk]; dsimp only
  rw [readU8_writeU8]; dsimp only
  rw [readI32_writeI32 p.maxRestarts hmr1 hmr2]; dsimp only
  rw [readU64_writeU64 p.minUptimeMs hmu]; dsimp only
  rw [readU32_writeU32 p.restartDelayMs hrd]; dsimp only
  rw [readU8_writeU8]; dsimp only
  rw [readU64_writeU64 p.maxMemoryRestart hmm]; dsimp only
  rw [readU8_writeU8]; dsimp only
  rw [readU32_writeU32 p.watchDelayMs hwd]; dsimp only
  rw [readString_writeString p.watchPaths hv5 hl5]; dsimp only
  rw [readString_writeString p.watchIgnore hv6 hl6]; dsimp only
  rw [readString_writeString p.cronRestart hv7 hl7]; dsimp only
  rw [readU8_writeU8]; dsimp only
  rw [readU32_writeU32 p.listenTimeoutMs hlt]; dsimp only
  rw [readU8_writeU8]; dsimp only
  rw [readU32_writeU32 p.instances hin]
  rfl

/-! ## Truncation behaviour of the readers -/

theorem readU8_none_iff (bs : List Nat) : readU8 bs = none ↔ bs.length < 1 := by
  rcases bs with _ | ⟨b0, rest⟩ <;> simp [readU8]

theorem readU8_some_len (bs : List Nat) (v : Nat) (rest : List Nat)
    (h : readU8 bs = some (v, rest)) : bs = v :: rest := by
  rcases bs with _ | ⟨b0, tl⟩ <;> simp [readU8] at h
  simp [h.1, h.2]

theorem readU32_none_iff (bs : List Nat) : readU32 bs = none ↔ bs.length < 4 := by
  rcases bs with _ | ⟨b0, _ | ⟨b1, _ | ⟨b2, _ | ⟨b3, rest⟩⟩⟩⟩ <;> simp [readU32]

theorem readU32_some_len (bs : List Nat) (v : Nat) (rest : List Nat)
    (h : readU32 bs = some (v, rest)) :
    bs.length = 4 + rest.length ∧ rest = bs.drop 4 := by
  rcases bs with _ | ⟨b0, _ | ⟨b1, _ | ⟨b2, _ | ⟨b3, tl⟩⟩⟩⟩ <;> simp [readU32] at h
  simp [← h.2]
  omega

theorem readI32_none_iff (bs : List Nat) : readI32 bs = none ↔ bs.length < 4 := by
  rcases bs with _ | ⟨b0, _ | ⟨b1, _ | ⟨b2, _ | ⟨b3, rest⟩⟩⟩⟩ <;> simp [readI32]

theorem readI32_some_len (bs : List Nat) (v : Int) (rest : List Nat)
    (h : readI32 bs = some (v, rest)) :
    bs.length = 4 + rest.length ∧ rest = bs.drop 4 := by
  rcases bs with _ | ⟨b0, _ | ⟨b1, _ | ⟨b2, _ | ⟨b3, tl⟩⟩⟩⟩ <;> simp [readI32] at h
  simp [← h.2]
  omega

theorem readU64_none_iff (bs : List Nat) : readU64 bs = none ↔ bs.length < 8 := by
  rcases bs with _ | ⟨b0, _ | ⟨b1, _ | ⟨b2, _ | ⟨b3, _ | ⟨b4, _ | ⟨b5, _ |
    ⟨b6, _ | ⟨b7, rest⟩⟩⟩⟩⟩⟩⟩⟩ <;> simp [readU64]

theorem readU64_some_len (bs : List Nat) (v : Nat) (rest : List Nat)
    (h : readU64 bs = some (v, rest)) :
    bs.length = 8 + rest.length ∧ rest = bs.drop 8 := by
  rcases bs with _ | ⟨b0, _ | ⟨b1, _ | ⟨b2, _ | ⟨b3, _ | ⟨b4, _ | ⟨b5, _ |
    ⟨b6, _ | ⟨b7, tl⟩⟩⟩⟩⟩⟩⟩⟩ <;> simp [readU64] at h
  simp [← h.2]
  omega

theorem readString_some_spec (bs : List Nat) (s rest : List Nat)
    (h : readString bs = some (s, rest)) :
    bs.length = 4 + s.length + rest.length ∧ validUtf8 s = true := by
  unfold readString at h
  cases hr : readU32 bs with
  | none => rw [hr] at h; exact absurd h (by simp)
  | some p =>
    obtain ⟨len, r4⟩ := p
    rw [hr] at h
    dsimp only at h
    have hlen := readU32_some_len bs len r4 hr
    by_cases hle : len ≤ r4.length
    · rw [if_pos hle] at h
      by_cases hv : validUtf8 (r4.take len) = true
      · rw [if_pos hv] at h
        obtain ⟨hs1, hs2⟩ : r4.take len = s ∧ r4.drop len = rest := by
          simpa using h
        subst hs1; subst hs2
        refine ⟨?_, hv⟩
        simp only [List.length_take, List.length_drop]
        omega
      · rw [if_neg hv] at h; simp at h
    · rw [if_neg hle] at h; simp at h

theorem readString_none_spec (bs : List Nat) (h : readString bs = none) :
    bs.length < 4 ∨ ∃ len r4, readU32 bs = some (len, r4) ∧
      (r4.length < len ∨ validUtf8 (r4.take len) = false) := by
  unfold readString at h
  cases hr : readU32 bs with
  | none => exact Or.inl ((readU32_none_iff bs).mp hr)
  | some p =>
    obtain ⟨len, r4⟩ := p
    rw [hr] at h
    dsimp only at h
    refine Or.inr ⟨len, r4, rfl, ?_⟩
    by_cases hle : len ≤ r4.length
    · rw [if_pos hle] at h
      by_cases hv : validUtf8 (r4.take len) = true
      · rw [if_pos hv] at h; simp at h
      · exact Or.inr (by simpa using hv)
    · exact Or.inl (by omega)

/-! ## Claim theorems -/

/-- C2: `Request::encode` produces exactly magic, version, the 4-byte LE
body length `5 + |p|`, the 4-byte LE request id, the command byte, and the
payload unchanged; total length `7 + 5 + |p|`. -/
theorem request_encode_layout (r : Nat) (c : CommandCode) (p : List Nat)
    (hid : r < 2 ^ 32) (hlen : 5 + p.length < 2 ^ 32) :
    (Request.mk r c p).encode =
      [MAGIC0, MAGIC1, VERSION,
       (5 + p.length) % 256, (5 + p.length) / 256 % 256,
       (5 + p.length) / 256 / 256 % 256, (5 + p.length) / 256 / 256 / 256 % 256,
       r % 256, r / 256 % 256, r / 256 / 256 % 256, r / 256 / 256 / 256 % 256,
       c.toU8] ++ p ∧
    (Request.mk r c p).encode.length = 7 + (5 + p.length) := by
  constructor
  · rfl
  · show ([MAGIC0, MAGIC1, VERSION,
       (5 + p.length) % 256, (5 + p.length) / 256 % 256,
       (5 + p.length) / 256 / 256 % 256, (5 + p.length) / 256 / 256 / 256 % 256,
       r % 256, r / 256 % 256, r / 256 / 256 % 256, r / 256 / 256 / 256 % 256,
       c.toU8] ++ p).length = 7 + (5 + p.length)
    simp [List.length_append]
    omega

theorem request_encode_layout_witness :
    (Request.mk 1 .ping []).encode =
      [MAGIC0, MAGIC1, VERSION, 5, 0, 0, 0, 1, 0, 0, 0, CommandCode.ping.toU8] ∧
    (Request.mk 1 .ping []).encode.length = 12 := by
  have h := request_encode_layout 1 .ping [] (by decide) (by decide)
  simpa using h

/-- C1: framing round-trip — decoding the header of an encoded request
yields body length `5 + |p|`, the body parses back to `r` (leading LE u32)
and `p` (trailing bytes); and `decode_header` rejects every 7-byte header
with wrong magic or version. -/
theorem frame_roundtrip_and_reject (r : Nat) (c : CommandCode) (p : List Nat)
    (hid : r < 2 ^ 32) (hlen : 5 + p.length < 2 ^ 32) :
    (decodeHeader ((Request.mk r c p).encode.take 7) = some (5 + p.length) ∧
     readU32 ((Request.mk r c p).encode.drop 7) = some (r, c.toU8 :: p) ∧
     ((Request.mk r c p).encode.drop 7).drop 5 = p) ∧
    (∀ b0 b1 b2 b3 b4 b5 b6 : Nat,
      b0 ≠ MAGIC0 ∨ b1 ≠ MAGIC1 ∨ b2 ≠ VERSION →
      decodeHeader [b0, b1, b2, b3, b4, b5, b6] = none) := by
  refine ⟨⟨?_, ?_, ?_⟩, ?_⟩
  · have h1 : (Request.mk r c p).encode.take 7 =
        [MAGIC0, MAGIC1, VERSION,
         (5 + p.length) % 256, (5 + p.length) / 256 % 256,
         (5 + p.length) / 256 / 256 % 256,
         (5 + p.length) / 256 / 256 / 256 % 256] := rfl
    rw [h1, decodeHeader]
    simp only [MAGIC0, MAGIC1, VERSION, leVal]
    norm_num
    omega
  · have h2 : (Request.mk r c p).encode.drop 7 =
        r % 256 :: (r / 256 % 256) :: (r / 256 / 256 % 256) ::
          (r / 256 / 256 / 256 % 256) :: c.toU8 :: p := rfl
    rw [h2, readU32]
    simp only [leVal, Option.some.injEq, Prod.mk.injEq]
    exact ⟨by omega, trivial⟩
  · rfl
  · intro b0 b1 b2 b3 b4 b5 b6 h
    rw [decodeHeader]
    split_ifs with h1 h2
    · rfl
    · rfl
    · exact absurd h (by push_neg at h1 h2 ⊢; exact ⟨h1.1, h1.2, h2⟩)

theorem frame_roundtrip_and_reject_witness :
    (decodeHeader ((Request.mk 7 .processList [9, 9]).encode.take 7) = some 7 ∧
     readU32 ((Request.mk 7 .processList [9, 9]).encode.drop 7) =
       some (7, CommandCode.processList.toU8 :: [9, 9]) ∧
     ((Request.mk 7 .processList [9, 9]).encode.drop 7).drop 5 = [9, 9]) ∧
    decodeHeader [0, MAGIC1, VERSION, 1, 0, 0, 0] = none := by
  have h := frame_roundtrip_and_reject 7 .processList [9, 9] (by decide) (by decide)
  exact ⟨by simpa using h.1, h.2 0 MAGIC1 VERSION 1 0 0 0 (by decide)⟩

/-- C3: every reader either consumes exactly the declared number of bytes
or errors when fewer remain (`read_string` also errors on invalid UTF-8);
`Response::from_body` rejects bodies shorter than 5 bytes and unknown
status bytes (anything outside `{0,1,2}`); and the three decoders are
total: every input yields either a value or an error. -/
theorem reader_truncation_and_totality (bs : List Nat) :
    (∀ v rest, readU8 bs = some (v, rest) → bs = v :: rest) ∧
    (readU8 bs = none ↔ bs.length < 1) ∧
    (∀ v rest, readU32 bs = some (v, rest) →
      bs.length = 4 + rest.length ∧ rest = bs.drop 4) ∧
    (readU32 bs = none ↔ bs.length < 4) ∧
    (∀ v rest, readI32 bs = some (v, rest) →
      bs.length = 4 + rest.length ∧ rest = bs.drop 4) ∧
    (readI32 bs = none ↔ bs.length < 4) ∧
    (∀ v rest, readU64 bs = some (v, rest) →
      bs.length = 8 + rest.length ∧ rest = bs.drop 8) ∧
    (readU64 bs = none ↔ bs.length < 8) ∧
    (∀ s rest, readString bs = some (s, rest) →
      bs.length = 4 + s.length + rest.length ∧ validUtf8 s = true) ∧
    (readString bs = none → bs.length < 4 ∨
      ∃ len r4, readU32 bs = some (len, r4) ∧
        (r4.length < len ∨ validUtf8 (r4.take len) = false)) ∧
    (bs.length < 5 → Response.fromBody bs = none) ∧
    (∀ b0 b1 b2 b3 sb rest, bs = b0 :: b1 :: b2 :: b3 :: sb :: rest →
      ResponseStatus.fromU8 sb = none → Response.fromBody bs = none) ∧
    (∀ v : Nat, ResponseStatus.fromU8 v = none ↔ ¬(v = 0 ∨ v = 1 ∨ v = 2)) ∧
    (decodeProcessList bs = none ∨ ∃ ps, decodeProcessList bs = some ps) ∧
    (decodeProcessDetail bs = none ∨ ∃ d, decodeProcessDetail bs = some d) ∧
    (decodeLogEntries bs = none ∨ ∃ es, decodeLogEntries bs = some es) := by
  refine ⟨readU8_some_len bs, readU8_none_iff bs,
    readU32_some_len bs, readU32_none_iff bs,
    readI32_some_len bs, readI32_none_iff bs,
    readU64_some_len bs, readU64_none_iff bs,
    readString_some_spec bs, readString_none_spec bs,
    ?_, ?_, ?_, ?_, ?_, ?_⟩
  · intro hshort
    rcases bs with _ | ⟨b0, _ | ⟨b1, _ | ⟨b2, _ | ⟨b3, _ | ⟨b4, rest⟩⟩⟩⟩⟩ <;>
      first
        | rfl
        | (exfalso; simp only [List.length_cons] at hshort; omega)
  · intro b0 b1 b2 b3 sb rest hshape hstatus
    subst hshape
    rw [Response.fromBody, hstatus]
  · intro v
    match v with
    | 0 => simp [ResponseStatus.fromU8]
    | 1 => simp [ResponseStatus.fromU8]
    | 2 => simp [ResponseStatus.fromU8]
    | n + 3 => simp [ResponseStatus.fromU8]
  · cases h : decodeProcessList bs with
    | none => exact Or.inl rfl
    | some ps => exact Or.inr ⟨ps, rfl⟩
  · cases h : decodeProcessDetail bs with
    | none => exact Or.inl rfl
    | some d => exact Or.inr ⟨d, rfl⟩
  · cases h : decodeLogEntries bs with
    | none => exact Or.inl rfl
    | some es => exact Or.inr ⟨es, rfl⟩

/-- C4: primitive codec round-trip — any sequence of `BinaryWriter` writes
(with in-range values and valid-UTF-8 strings shorter than `2 ^ 32` bytes)
read back by the matching `BinaryReader` calls in the same order yields
exactly the written values; in particular `StartPayload::encode` followed
by field-wise reads in declaration order recovers every field, booleans as
bytes in `{0, 1}`. -/
theorem primitive_codec_roundtrip (its : List WItem) (p : StartPayload)
    (rest rest2 : List Nat) (hits : ∀ it ∈ its, it.WF) (hp : p.WF) :
    readItems its (writeItems its ++ rest) = some (its, rest) ∧
    readStartFields (p.encode ++ rest2) = some (p.fieldBytes, rest2) :=
  ⟨readItems_writeItems its hits rest, readStartFields_encode p hp rest2⟩

theorem primitive_codec_roundtrip_witness :
    readItems [.u8 7, .u32 70000, .i32 (-5), .u64 4294967297, .str [104, 105]]
        (writeItems [.u8 7, .u32 70000, .i32 (-5), .u64 4294967297,
          .str [104, 105]] ++ []) =
      some ([.u8 7, .u32 70000, .i32 (-5), .u64 4294967297, .str [104, 105]], []) ∧
    readStartFields ((StartPayload.mk [109, 121] [97] [47] none 5000 true 15
        1000 100 false 0 false 0 [] [] [] false 8000 false 1).encode ++ []) =
      some ((StartPayload.mk [109, 121] [97] [47] none 5000 true 15 1000 100
        false 0 false 0 [] [] [] false 8000 false 1).fieldBytes, []) :=
  primitive_codec_roundtrip
    [.u8 7, .u32 70000, .i32 (-5), .u64 4294967297, .str [104, 105]]
    (StartPayload.mk [109, 121] [97] [47] none 5000 true 15 1000 100 false 0
      false 0 [] [] [] false 8000 false 1) [] []
    (by intro it hit; fin_cases hit <;> simp only [WItem.WF] <;> decide)
    (by simp only [StartPayload.WF]; decide)

/-- C5: `check_response` fails exactly on status `Error` (statuses `Ok`
and `Streaming` succeed), and the error it returns carries exactly the
lossy UTF-8 decoding of the response payload, as produced by
`Response::error_message`. -/
theorem check_response_spec (resp : Response) :
    ((∃ e, checkResponse resp = .error e) ↔ resp.status = .error) ∧
    ((resp.status = .ok ∨ resp.status = .streaming) →
      checkResponse resp = .ok ()) ∧
    (∀ e, checkResponse resp = .error e → e = resp.errorMessage) ∧
    resp.errorMessage = utf8Lossy resp.payload := by
  cases hs : resp.status <;>
    simp [checkResponse, hs, Response.errorMessage]

theorem isClusterInstance_iff (base name : List Nat) :
    isClusterInstance base name = true ↔
    ∃ suffix, name = base ++ 58 :: suffix ∧ (parseU32 suffix).isSome = true := by
  unfold isClusterInstance
  simp only [Bool.and_eq_true, decide_eq_true_eq, beq_iff_eq]
  constructor
  · rintro ⟨⟨⟨hlen, hpre⟩, hget⟩, hparse⟩
    rw [ List.isPrefixOf_iff_prefix] at hpre
    obtain ⟨t, ht⟩ := hpre
    subst ht
    rw [List.getElem?_append_right (Nat.le_refl _), Nat.sub_self] at hget
    rcases t with _ | ⟨b, rest⟩
    · simp at hget
    · simp only [List.getElem?_cons_zero, Option.some.injEq] at hget
      subst hget
      refine ⟨rest, rfl, ?_⟩
      rwa [show base ++ 58 :: rest = (base ++ [58]) ++ rest by simp,
        show base.length + 1 = (base ++ [58]).length by simp,
        List.drop_left] at hparse
  · rintro ⟨suffix, rfl, hs⟩
    refine ⟨⟨⟨?_, ?_⟩, ?_⟩, ?_⟩
    · simp
    · rw [ List.isPrefixOf_iff_prefix]; exact ⟨58 :: suffix, rfl⟩
    · rw [List.getElem?_append_right (Nat.le_refl _), Nat.sub_self]
      simp
    · rwa [show base ++ 58 :: suffix = (base ++ [58]) ++ suffix by simp,
        show base.length + 1 = (base ++ [58]).length by simp,
        List.drop_left]

/-- C6: exact-before-prefix name resolution — for a query that is not
numeric, `resolve_ids` returns all exact name matches when any exist, only
otherwise the `base:numeric` cluster matches, and errs with
`ProcessNotFound` when both sets are empty; every returned id belongs to a
process whose name is the query or the query followed by `:` and a numeric
suffix. -/
theorem resolve_ids_spec (procs : List ProcessInfo) (q : List Nat)
    (hq : parseU32 q = none) :
    ((∃ p ∈ procs, p.name = q) →
      resolveIds procs q =
        .ok ((procs.filter fun p => p.name = q).map (·.id))) ∧
    ((∀ p ∈ procs, p.name ≠ q) →
      (∃ p ∈ procs, isClusterInstance q p.name = true) →
      resolveIds procs q =
        .ok ((procs.filter fun p => isClusterInstance q p.name).map (·.id))) ∧
    ((∀ p ∈ procs, p.name ≠ q) →
      (∀ p ∈ procs, isClusterInstance q p.name = false) →
      resolveIds procs q = .error (.processNotFound q)) ∧
    (∀ ids, resolveIds procs q = .ok ids → ∀ i ∈ ids, ∃ p ∈ procs,
      p.id = i ∧ (p.name = q ∨ ∃ suffix, p.name = q ++ 58 :: suffix ∧
        (parseU32 suffix).isSome = true)) := by
  have hr : resolveIds procs q =
      (if (procs.filter fun p => p.name = q).map (·.id) ≠ [] then
        Except.ok ((procs.filter fun p => p.name = q).map (·.id))
      else if (procs.filter fun p => isClusterInstance q p.name).map (·.id)
          ≠ [] then
        Except.ok ((procs.filter fun p => isClusterInstance q p.name).map (·.id))
      else Except.error (.processNotFound q)) := by
    unfold resolveIds
    rw [hq]
  refine ⟨?_, ?_, ?_, ?_⟩
  · rintro ⟨p0, hp0, hname⟩
    have hne : (procs.filter fun p => p.name = q).map (·.id) ≠ [] := by
      simp only [ne_eq, List.map_eq_nil_iff, List.filter_eq_nil_iff,
        decide_eq_true_eq, not_forall]
      exact ⟨p0, hp0, by simp [hname]⟩
    rw [hr, if_pos hne]
  · intro hnoexact hcl
    have heq : (procs.filter fun p => p.name = q).map (·.id) = [] := by
      simp only [List.map_eq_nil_iff, List.filter_eq_nil_iff, decide_eq_true_eq]
      exact hnoexact
    obtain ⟨p0, hp0, hc0⟩ := hcl
    have hne : (procs.filter fun p => isClusterInstance q p.name).map (·.id)
        ≠ [] := by
      simp only [ne_eq, List.map_eq_nil_iff, List.filter_eq_nil_iff, not_forall]
      exact ⟨p0, hp0, by simp [hc0]⟩
    rw [hr, if_neg (by simpa using heq), if_pos hne]
  · intro hnoexact hnocl
    have heq : (procs.filter fun p => p.name = q).map (·.id) = [] := by
      simp only [List.map_eq_nil_iff, List.filter_eq_nil_iff, decide_eq_true_eq]
      exact hnoexact
    have heq2 : (procs.filter fun p => isClusterInstance q p.name).map (·.id)
        = [] := by
      simp only [List.map_eq_nil_iff, List.filter_eq_nil_iff]
      intro p hp
      simp [hnocl p hp]
    rw [hr, if_neg (by simpa using heq), if_neg (by simpa using heq2)]
  · intro ids hids i hi
    rw [hr] at hids
    split_ifs at hids with h1 h2
    · obtain ⟨rfl⟩ : (procs.filter fun p => p.name = q).map (·.id) = ids := by
        simpa using hids
      obtain ⟨p0, hp0, hpid⟩ := List.mem_map.mp hi
      have hmem := List.mem_filter.mp hp0
      exact ⟨p0, hmem.1, hpid, Or.inl (by simpa using hmem.2)⟩
    · obtain ⟨rfl⟩ : (procs.filter fun p =>
          isClusterInstance q p.name).map (·.id) = ids := by
        simpa using hids
      obtain ⟨p0, hp0, hpid⟩ := List.mem_map.mp hi
      have hmem := List.mem_filter.mp hp0
      refine ⟨p0, hmem.1, hpid, Or.inr ?_⟩
      exact (isClusterInstance_iff q p0.name).mp hmem.2

theorem resolve_ids_spec_witness :
    resolveIds [⟨3, [97, 112, 105, 58, 48], 0, 1, 0, 0, 0⟩,
        ⟨4, [97, 112, 105, 45, 118, 50], 0, 1, 0, 0, 0⟩,
        ⟨5, [97, 112, 105, 58, 120], 0, 1, 0, 0, 0⟩]
      [97, 112, 105] = .ok [3] := by
  have h := resolve_ids_spec
    [⟨3, [97, 112, 105, 58, 48], 0, 1, 0, 0, 0⟩,
     ⟨4, [97, 112, 105, 45, 118, 50], 0, 1, 0, 0, 0⟩,
     ⟨5, [97, 112, 105, 58, 120], 0, 1, 0, 0, 0⟩]
    [97, 112, 105] (by decide)
  have h2 := h.2.1 (by decide) ⟨⟨3, [97, 112, 105, 58, 48], 0, 1, 0, 0, 0⟩,
    by simp, by decide⟩
  simpa using h2

theorem eqIgnoreAsciiCase_maxLit_false (s : List Nat) (b : Nat)
    (h : s.head? = some b) (hb : lowerByte b ≠ 109) :
    eqIgnoreAsciiCase s maxLit = false := by
  rcases s with _ | ⟨c, rest⟩
  · simp at h
  · obtain rfl : c = b := by simpa using h
    simp only [eqIgnoreAsciiCase, maxLit, List.map, beq_eq_false_iff_ne, ne_eq,
      List.cons.injEq, not_and]
    intro hc
    exact absurd hc hb

theorem i32OfUsize_small (n : Nat) (h : n < 2 ^ 31) : i32OfUsize n = (n : Int) := by
  simp only [i32OfUsize, i32OfU32]
  split <;> omega

/-- C7 (amended): `resolve_target_count` — `"max"` (ASCII-case-
insensitively, after trimming) yields the host CPU count; `"+K"`/`"-K"`
yield the current instance count (exact name or `name:numeric` matches)
plus the delta in wrapping `i32` arithmetic, clamped at zero — whenever
`current + delta` fits in `i32` that is `max(current + delta, 0)`; an
absolute decimal string yields its `u32` value; and anything else is
rejected. -/
theorem resolve_target_count_spec (cpus : Nat) (procs : List ProcessInfo)
    (name countStr : List Nat) :
    (eqIgnoreAsciiCase (trimBytes countStr) maxLit = true →
      resolveTargetCount cpus procs name countStr = some cpus) ∧
    (∀ delta : Int,
      ((trimBytes countStr).head? = some 43 ∨
        (trimBytes countStr).head? = some 45) →
      parseI32 (trimBytes countStr) = some delta →
      currentInstanceCount procs name < 2 ^ 31 →
      resolveTargetCount cpus procs name countStr =
        some (max (i32Wrap ((currentInstanceCount procs name : Int) + delta))
          0).toNat ∧
      (-(2 ^ 31) ≤ (currentInstanceCount procs name : Int) + delta →
        (currentInstanceCount procs name : Int) + delta < 2 ^ 31 →
        resolveTargetCount cpus procs name countStr =
          some (max ((currentInstanceCount procs name : Int) + delta)
            0).toNat)) ∧
    (∀ n : Nat,
      (trimBytes countStr).head? ≠ some 43 →
      (trimBytes countStr).head? ≠ some 45 →
      parseU32 (trimBytes countStr) = some n →
      resolveTargetCount cpus procs name countStr = some n) ∧
    (eqIgnoreAsciiCase (trimBytes countStr) maxLit = false →
      (((trimBytes countStr).head? = some 43 ∨
          (trimBytes countStr).head? = some 45) →
        parseI32 (trimBytes countStr) = none) →
      ((trimBytes countStr).head? ≠ some 43 →
        (trimBytes countStr).head? ≠ some 45 →
        parseU32 (trimBytes countStr) = none) →
      resolveTargetCount cpus procs name countStr = none) := by
  refine ⟨?_, ?_, ?_, ?_⟩
  · intro hmax
    unfold resolveTargetCount
    rw [if_pos hmax]
  · intro delta hsign hparse hsmall
    have hb : ∃ b, (trimBytes countStr).head? = some b ∧ lowerByte b ≠ 109 := by
      rcases hsign with h | h
      · exact ⟨43, h, by decide⟩
      · exact ⟨45, h, by decide⟩
    obtain ⟨b, hbh, hbl⟩ := hb
    have hwrap : resolveTargetCount cpus procs name countStr =
        some (max (i32Wrap ((currentInstanceCount procs name : Int) + delta))
          0).toNat := by
      unfold resolveTargetCount
      rw [if_neg (by simp [eqIgnoreAsciiCase_maxLit_false _ b hbh hbl]),
        if_pos hsign, hparse]
      rw [i32OfUsize_small _ hsmall]
    refine ⟨hwrap, ?_⟩
    intro hlo hhi
    rw [hwrap,
      show i32Wrap ((currentInstanceCount procs name : Int) + delta) =
          (currentInstanceCount procs name : Int) + delta from
        i32OfU32_u32OfI32 _ hlo hhi]
  · intro n h43 h45 hparse
    unfold resolveTargetCount
    obtain ⟨b, rest, hbr⟩ : ∃ b rest, trimBytes countStr = b :: rest := by
      rcases h : trimBytes countStr with _ | ⟨b, rest⟩
      · rw [h] at hparse
        exact absurd hparse (by simp [parseU32, parseUnsigned])
      · exact ⟨b, rest, rfl⟩
    have hb43 : b ≠ 43 := fun hb => h43 (by simp [hbr, hb])
    have hd : isDigitByte b = true := by
      have hp2 := hparse
      rw [hbr] at hp2
      unfold parseU32 parseUnsigned at hp2
      simp only [if_neg hb43] at hp2
      by_cases hall : (b :: rest).all isDigitByte
      · exact (List.all_eq_true.mp hall b (by simp))
      · rw [if_neg (by simp), if_neg hall] at hp2
        exact absurd hp2 (by simp)
    have hlow : lowerByte b ≠ 109 := by
      simp only [isDigitByte, Bool.and_eq_true, decide_eq_true_eq] at hd
      unfold lowerByte
      split <;> omega
    have hfalse := eqIgnoreAsciiCase_maxLit_false (trimBytes countStr) b
      (by rw [hbr]; rfl) hlow
    rw [if_neg (by simp [hfalse]), if_neg (not_or.mpr ⟨h43, h45⟩), hparse]
  · intro hmax hrel habs
    unfold resolveTargetCount
    rw [if_neg (by simp [hmax])]
    by_cases hsign : (trimBytes countStr).head? = some 43 ∨
        (trimBytes countStr).head? = some 45
    · rw [if_pos hsign, hrel hsign]
    · rw [if_neg hsign, habs (fun h => hsign (Or.inl h))
        (fun h => hsign (Or.inr h))]

theorem resolve_target_count_spec_witness :
    resolveTargetCount 8 [] [97] [109, 65, 120] = some 8 ∧
    resolveTargetCount 8 [⟨1, [97], 0, 1, 0, 0, 0⟩,
      ⟨2, [97, 58, 49], 0, 1, 0, 0, 0⟩] [97] [43, 50] = some 4 ∧
    resolveTargetCount 8 [⟨1, [97], 0, 1, 0, 0, 0⟩] [97] [45, 51] = some 0 ∧
    resolveTargetCount 8 [] [97] [52, 50] = some 42 ∧
    resolveTargetCount 8 [] [97] [120] = none := by
  refine ⟨?_, ?_, ?_, ?_, ?_⟩
  · exact (resolve_target_count_spec 8 [] [97] [109, 65, 120]).1 (by decide)
  · have h := ((resolve_target_count_spec 8 [⟨1, [97], 0, 1, 0, 0, 0⟩,
      ⟨2, [97, 58, 49], 0, 1, 0, 0, 0⟩] [97] [43, 50]).2.1 2
      (by decide) (by decide) (by decide)).2 (by decide) (by decide)
    simpa using h
  · have h := ((resolve_target_count_spec 8 [⟨1, [97], 0, 1, 0, 0, 0⟩]
      [97] [45, 51]).2.1 (-3) (by decide) (by decide) (by decide)).2
      (by decide) (by decide)
    simpa using h
  · exact (resolve_target_count_spec 8 [] [97] [52, 50]).2.2.1 42
      (by decide) (by decide) (by decide)
  · exact (resolve_target_count_spec 8 [] [97] [120]).2.2.2
      (by decide) (by decide) (by decide)

/-- Counterexample to C7 as originally stated: with one process named `a`
(so `current = 1`) and count string `"+2147483647"`, the code's `i32`
addition wraps to `-2147483648` and the clamp yields `0`, not the
unbounded `max(current + delta, 0) = 2147483648` the claim asserts. -/
theorem resolve_target_count_overflow_cex :
    resolveTargetCount 8 [⟨1, [97], 0, 1, 0, 0, 0⟩] [97]
        [43, 50, 49, 52, 55, 52, 56, 51, 54, 52, 55] = some 0 ∧
    (max ((currentInstanceCount [⟨1, [97], 0, 1, 0, 0, 0⟩] [97] : Int) +
        2147483647) 0).toNat = 2147483648 ∧
    parseI32 [43, 50, 49, 52, 55, 52, 56, 51, 54, 52, 55] =
      some 2147483647 := by
  refine ⟨by decide, by decide, by decide⟩

/-- C8: `format_metrics` emits one `velos_process_status` sample per
process valued by the wire status byte (0 ↦ 0 stopped, 1 ↦ 1 online,
2 ↦ 2 errored), one memory / uptime / restart sample per process carrying
`memory_bytes`, `uptime_ms / 1000` and `restart_count`, and a
`velos_daemon_processes_total` sample equal to the number of processes. -/
theorem format_metrics_spec (procs : List ProcessInfo) :
    ((formatMetrics procs).filter
        (fun s => s.metric = "velos_process_status") =
      procs.map fun p => ⟨"velos_process_status", promEscape p.name, p.id,
        (promStatusVal p.status : ℚ)⟩) ∧
    promStatusVal 0 = 0 ∧ promStatusVal 1 = 1 ∧ promStatusVal 2 = 2 ∧
    ((formatMetrics procs).filter
        (fun s => s.metric = "velos_process_memory_bytes") =
      procs.map fun p => ⟨"velos_process_memory_bytes", promEscape p.name,
        p.id, (p.memoryBytes : ℚ)⟩) ∧
    ((formatMetrics procs).filter
        (fun s => s.metric = "velos_process_uptime_seconds") =
      procs.map fun p => ⟨"velos_process_uptime_seconds", promEscape p.name,
        p.id, (p.uptimeMs : ℚ) / 1000⟩) ∧
    ((formatMetrics procs).filter
        (fun s => s.metric = "velos_process_restart_total") =
      procs.map fun p => ⟨"velos_process_restart_total", promEscape p.name,
        p.id, (p.restartCount : ℚ)⟩) ∧
    ((formatMetrics procs).filter
        (fun s => s.metric = "velos_daemon_processes_total") =
      [⟨"velos_daemon_processes_total", [], 0, (procs.length : ℚ)⟩]) := by
  refine ⟨?_, rfl, rfl, rfl, ?_, ?_, ?_, ?_⟩ <;>
    simp [formatMetrics, promFamily, List.filter_append, List.filter_map,
      Function.comp_def]

theorem utf8CodePoint_ascii (b : Nat) (rest : List Nat) (h : b < 128) :
    utf8CodePoint (b :: rest) = some (b, 1) := by
  simp only [utf8CodePoint]
  rw [if_pos h]

theorem trimFrontFuel_no_ws (fuel : Nat) (s : List Nat)
    (h : ∀ b ∈ s, b < 128 ∧ isUnicodeSpace b = false) :
    trimFrontFuel fuel s = s := by
  cases fuel with
  | zero => rfl
  | succ fuel =>
    cases s with
    | nil => rfl
    | cons b rest =>
      obtain ⟨hlt, hws⟩ := h b (by simp)
      rw [trimFrontFuel, utf8CodePoint_ascii b rest hlt]
      simp [hws]

theorem trimBackFuel_no_ws (fuel : Nat) : ∀ s : List Nat, s.length ≤ fuel →
    (∀ b ∈ s, b < 128 ∧ isUnicodeSpace b = false) →
    trimBackFuel fuel s = s := by
  induction fuel with
  | zero => intro s _ _; rfl
  | succ fuel ih =>
    intro s hlen h
    cases s with
    | nil => rfl
    | cons b rest =>
      obtain ⟨hlt, hws⟩ := h b (by simp)
      have hrest : trimBackFuel fuel rest = rest := by
        refine ih rest ?_ (fun x hx => h x (by simp [hx]))
        simp only [List.length_cons] at hlen
        omega
      rw [trimBackFuel, utf8CodePoint_ascii b rest hlt]
      simp [hrest, hws]

theorem trimBytes_eq_self (s : List Nat)
    (h : ∀ b ∈ s, b < 128 ∧ isUnicodeSpace b = false) : trimBytes s = s := by
  unfold trimBytes
  rw [trimFrontFuel_no_ws s.length s h, trimBackFuel_no_ws s.length s
    (Nat.le_refl _) h]

theorem stripSuffixByte_concat_eq (s : List Nat) (c : Nat) :
    stripSuffixByte (s ++ [c]) c = some s := by
  simp [stripSuffixByte, List.getLast?_concat, List.dropLast_concat]

theorem stripSuffixByte_concat_ne (s : List Nat) (c d : Nat) (h : c ≠ d) :
    stripSuffixByte (s ++ [c]) d = none := by
  simp [stripSuffixByte, List.getLast?_concat, h]

theorem stripSuffixByte_digits_none (s : List Nat) (d : Nat)
    (hne : s ≠ []) (hdig : s.all isDigitByte = true) (hd : 64 ≤ d) :
    stripSuffixByte s d = none := by
  unfold stripSuffixByte
  obtain ⟨a, ha⟩ : ∃ a, s.getLast? = some a := by
    cases h : s.getLast? with
    | none => exact absurd (List.getLast?_eq_none_iff.mp h) hne
    | some a => exact ⟨a, rfl⟩
  have hmem : a ∈ s := List.mem_of_mem_getLast? ha
  have hadig := List.all_eq_true.mp hdig a hmem
  simp only [isDigitByte, Bool.and_eq_true, decide_eq_true_eq] at hadig
  rw [ha, if_neg (by simp; omega)]

theorem parseU64_digits (s : List Nat) (hne : s ≠ [])
    (hdig : s.all isDigitByte = true) (hv : decVal s < 2 ^ 64) :
    parseU64 s = some (decVal s) := by
  rcases s with _ | ⟨c, rest⟩
  · exact absurd rfl hne
  · have hc := List.all_eq_true.mp hdig c (by simp)
    simp only [isDigitByte, Bool.and_eq_true, decide_eq_true_eq] at hc
    unfold parseU64 parseUnsigned
    dsimp only
    rw [if_neg (by omega : ¬c = 43), if_neg (by simp), if_pos hdig,
      if_pos hv]

theorem digits_no_space (s : List Nat) (hdig : s.all isDigitByte = true) :
    ∀ b ∈ s, b < 128 ∧ isUnicodeSpace b = false := by
  intro b hb
  have := List.all_eq_true.mp hdig b hb
  simp only [isDigitByte, Bool.and_eq_true, decide_eq_true_eq] at this
  refine ⟨by omega, ?_⟩
  simp only [isUnicodeSpace, Bool.or_eq_false_iff, decide_eq_false_iff_not,
    Bool.and_eq_false_iff]
  omega

/-- C9: `parse_memory_string` scales a decimal number by 1024³ / 1024² /
1024 / 1 for suffixes `G`/`g`, `M`/`m`, `K`/`k`, `B`/`b` or none (when the
product fits in `u64`), and errors on the (trimmed-)empty string and on
every input whose number part does not parse as `u64` — the last two
clauses universally, with `"abc"` and a bare `"M"` as instances. -/
theorem parse_memory_string_spec (s : List Nat) (n : Nat)
    (hne : s ≠ []) (hdig : s.all isDigitByte = true) (hval : decVal s = n)
    (hn : n < 2 ^ 64) :
    (n * (1024 * 1024 * 1024) < 2 ^ 64 →
      parseMemoryString (s ++ [71]) = some (n * (1024 * 1024 * 1024)) ∧
      parseMemoryString (s ++ [103]) = some (n * (1024 * 1024 * 1024))) ∧
    (n * (1024 * 1024) < 2 ^ 64 →
      parseMemoryString (s ++ [77]) = some (n * (1024 * 1024)) ∧
      parseMemoryString (s ++ [109]) = some (n * (1024 * 1024))) ∧
    (n * 1024 < 2 ^ 64 →
      parseMemoryString (s ++ [75]) = some (n * 1024) ∧
      parseMemoryString (s ++ [107]) = some (n * 1024)) ∧
    parseMemoryString (s ++ [66]) = some n ∧
    parseMemoryString (s ++ [98]) = some n ∧
    parseMemoryString s = some n ∧
    parseMemoryString [] = none ∧
    parseMemoryString [97, 98, 99] = none ∧
    parseMemoryString [77] = none ∧
    (∀ t : List Nat, trimBytes t = [] → parseMemoryString t = none) ∧
    (∀ t : List Nat,
      parseU64 (trimBytes (memSuffixSplit (trimBytes t)).1) = none →
      parseMemoryString t = none) := by
  subst hval
  have hns := digits_no_space s hdig
  have hns2 : ∀ c : Nat, c < 128 ∧ isUnicodeSpace c = false →
      ∀ b ∈ s ++ [c], b < 128 ∧ isUnicodeSpace b = false := by
    intro c hc b hb
    rcases List.mem_append.mp hb with h | h
    · exact hns b h
    · simpa using (List.mem_singleton.mp h) ▸ hc
  have hne2 : ∀ c : Nat, s ++ [c] ≠ [] := by simp
  have hp := parseU64_digits s hne hdig hn
  have hG : memSuffixSplit (s ++ [71]) = (s, 1024 * 1024 * 1024) := by
    rw [memSuffixSplit, stripSuffixByte_concat_eq]
  have hg : memSuffixSplit (s ++ [103]) = (s, 1024 * 1024 * 1024) := by
    rw [memSuffixSplit, stripSuffixByte_concat_ne s 103 71 (by decide),
      stripSuffixByte_concat_eq]
  have hM : memSuffixSplit (s ++ [77]) = (s, 1024 * 1024) := by
    rw [memSuffixSplit, stripSuffixByte_concat_ne s 77 71 (by decide),
      stripSuffixByte_concat_ne s 77 103 (by decide), stripSuffixByte_concat_eq]
  have hm : memSuffixSplit (s ++ [109]) = (s, 1024 * 1024) := by
    rw [memSuffixSplit, stripSuffixByte_concat_ne s 109 71 (by decide),
      stripSuffixByte_concat_ne s 109 103 (by decide),
      stripSuffixByte_concat_ne s 109 77 (by decide), stripSuffixByte_concat_eq]
  have hK : memSuffixSplit (s ++ [75]) = (s, 1024) := by
    rw [memSuffixSplit, stripSuffixByte_concat_ne s 75 71 (by decide),
      stripSuffixByte_concat_ne s 75 103 (by decide),
      stripSuffixByte_concat_ne s 75 77 (by decide),
      stripSuffixByte_concat_ne s 75 109 (by decide), stripSuffixByte_concat_eq]
  have hk : memSuffixSplit (s ++ [107]) = (s, 1024) := by
    rw [memSuffixSplit, stripSuffixByte_concat_ne s 107 71 (by decide),
      stripSuffixByte_concat_ne s 107 103 (by decide),
      stripSuffixByte_concat_ne s 107 77 (by decide),
      stripSuffixByte_concat_ne s 107 109 (by decide),
      stripSuffixByte_concat_ne s 107 75 (by decide), stripSuffixByte_concat_eq]
  have hB : memSuffixSplit (s ++ [66]) = (s, 1) := by
    rw [memSuffixSplit, stripSuffixByte_concat_ne s 66 71 (by decide),
      stripSuffixByte_concat_ne s 66 103 (by decide),
      stripSuffixByte_concat_ne s 66 77 (by decide),
      stripSuffixByte_concat_ne s 66 109 (by decide),
      stripSuffixByte_concat_ne s 66 75 (by decide),
      stripSuffixByte_concat_ne s 66 107 (by decide), stripSuffixByte_concat_eq]
  have hb : memSuffixSplit (s ++ [98]) = (s, 1) := by
    rw [memSuffixSplit, stripSuffixByte_concat_ne s 98 71 (by decide),
      stripSuffixByte_concat_ne s 98 103 (by decide),
      stripSuffixByte_concat_ne s 98 77 (by decide),
      stripSuffixByte_concat_ne s 98 109 (by decide),
      stripSuffixByte_concat_ne s 98 75 (by decide),
      stripSuffixByte_concat_ne s 98 107 (by decide),
      stripSuffixByte_concat_ne s 98 66 (by decide), stripSuffixByte_concat_eq]
  have hbare : memSuffixSplit s = (s, 1) := by
    rw [memSuffixSplit,
      stripSuffixByte_digits_none s 71 hne hdig (by norm_num),
      stripSuffixByte_digits_none s 103 hne hdig (by norm_num),
      stripSuffixByte_digits_none s 77 hne hdig (by norm_num),
      stripSuffixByte_digits_none s 109 hne hdig (by norm_num),
      stripSuffixByte_digits_none s 75 hne hdig (by norm_num),
      stripSuffixByte_digits_none s 107 hne hdig (by norm_num),
      stripSuffixByte_digits_none s 66 hne hdig (by norm_num),
      stripSuffixByte_digits_none s 98 hne hdig (by norm_num)]
  refine ⟨?_, ?_, ?_, ?_, ?_, ?_, by decide, by decide, by decide, ?_, ?_⟩
  · intro hsmall
    constructor
    · unfold parseMemoryString
      rw [trimBytes_eq_self _ (hns2 _ (by decide)), if_neg (hne2 _), hG]
      dsimp only
      rw [trimBytes_eq_self s hns, hp]
      dsimp only
      rw [Nat.mod_eq_of_lt hsmall]
    · unfold parseMemoryString
      rw [trimBytes_eq_self _ (hns2 _ (by decide)), if_neg (hne2 _), hg]
      dsimp only
      rw [trimBytes_eq_self s hns, hp]
      dsimp only
      rw [Nat.mod_eq_of_lt hsmall]
  · intro hsmall
    constructor
    · unfold parseMemoryString
      rw [trimBytes_eq_self _ (hns2 _ (by decide)), if_neg (hne2 _), hM]
      dsimp only
      rw [trimBytes_eq_self s hns, hp]
      dsimp only
      rw [Nat.mod_eq_of_lt hsmall]
    · unfold parseMemoryString
      rw [trimBytes_eq_self _ (hns2 _ (by decide)), if_neg (hne2 _), hm]
      dsimp only
      rw [trimBytes_eq_self s hns, hp]
      dsimp only
      rw [Nat.mod_eq_of_lt hsmall]
  · intro hsmall
    constructor
    · unfold parseMemoryString
      rw [trimBytes_eq_self _ (hns2 _ (by decide)), if_neg (hne2 _), hK]
      dsimp only
      rw [trimBytes_eq_self s hns, hp]
      dsimp only
      rw [Nat.mod_eq_of_lt hsmall]
    · unfold parseMemoryString
      rw [trimBytes_eq_self _ (hns2 _ (by decide)), if_neg (hne2 _), hk]
      dsimp only
      rw [trimBytes_eq_self s hns, hp]
      dsimp only
      rw [Nat.mod_eq_of_lt hsmall]
  · unfold parseMemoryString
    rw [trimBytes_eq_self _ (hns2 _ (by decide)), if_neg (hne2 _), hB]
    dsimp only
    rw [trimBytes_eq_self s hns, hp]
    dsimp only
    rw [Nat.mul_one, Nat.mod_eq_of_lt hn]
  · unfold parseMemoryString
    rw [trimBytes_eq_self _ (hns2 _ (by decide)), if_neg (hne2 _), hb]
    dsimp only
    rw [trimBytes_eq_self s hns, hp]
    dsimp only
    rw [Nat.mul_one, Nat.mod_eq_of_lt hn]
  · unfold parseMemoryString
    rw [trimBytes_eq_self s hns, if_neg hne, hbare]
    dsimp only
    rw [trimBytes_eq_self s hns, hp]
    dsimp only
    rw [Nat.mul_one, Nat.mod_eq_of_lt hn]
  · intro t ht
    unfold parseMemoryString
    rw [if_pos ht]
  · intro t hparse
    unfold parseMemoryString
    by_cases h : trimBytes t = []
    · rw [if_pos h]
    · rw [if_neg h, hparse]

theorem parse_memory_string_spec_witness :
    parseMemoryString [49, 53, 48, 77] = some 157286400 ∧
    parseMemoryString [49, 71] = some 1073741824 ∧
    parseMemoryString [53, 49, 50, 107] = some 524288 ∧
    parseMemoryString [52, 50] = some 42 ∧
    parseMemoryString [77] = none := by
  have h150 := parse_memory_string_spec [49, 53, 48] 150 (by decide) (by decide)
    (by decide) (by decide)
  have h1 := parse_memory_string_spec [49] 1 (by decide) (by decide)
    (by decide) (by decide)
  have h512 := parse_memory_string_spec [53, 49, 50] 512 (by decide) (by decide)
    (by decide) (by decide)
  have h42 := parse_memory_string_spec [52, 50] 42 (by decide) (by decide)
    (by decide) (by decide)
  exact ⟨(h150.2.1 (by decide)).1, (h1.1 (by decide)).1,
    (h512.2.2.1 (by decide)).2, h42.2.2.2.2.2.1, h42.2.2.2.2.2.2.2.2.1⟩

/-- C10: `StateLoadResult::decode` returns count 0 on empty input without
error, the LE u32 of the first 4 bytes on any input of at least 4 bytes,
and an error on inputs of 1 to 3 bytes. -/
theorem state_load_decode_spec :
    stateLoadDecode [] = some 0 ∧
    (∀ data : List Nat, 4 ≤ data.length →
      stateLoadDecode data = some (leVal (data.take 4))) ∧
    (∀ data : List Nat, 1 ≤ data.length → data.length ≤ 3 →
      stateLoadDecode data = none) := by
  refine ⟨rfl, ?_, ?_⟩
  · intro data h
    rcases data with _ | ⟨b0, _ | ⟨b1, _ | ⟨b2, _ | ⟨b3, rest⟩⟩⟩⟩
    · simp at h
    · simp at h
    · simp at h
    · simp at h
    · rfl
  · intro data h1 h3
    rcases data with _ | ⟨b0, _ | ⟨b1, _ | ⟨b2, _ | ⟨b3, rest⟩⟩⟩⟩
    · simp at h1
    · rfl
    · rfl
    · rfl
    · simp only [List.length_cons] at h3
      omega

end Velos

